import Mathlib

/-!
Verification of the core engine of the facial-attendance system
(`attendance_system.py`): the reference gallery built by
`load_reference_faces`, the matching algorithm `recognize_face`, the
attendance ledger `record_attendance`, and the `main` entry gate.

External capabilities (file system, image decoding, the OpenCV face
detector and template matcher) are modelled as explicit function
parameters; comparison scores are rationals.  Images are an abstract
type parameter `Img`.
-/

namespace FacialAttendance

/-- A face bounding box as returned by the detection capability:
`(x, y, w, h)` with area `w * h`. -/
structure Box where
  x : Nat
  y : Nat
  w : Nat
  h : Nat
  deriving DecidableEq

/-- Bounding-box area, the key `lambda x: x[2] * x[3]` used in
`load_reference_faces` to pick the largest face. -/
def boxArea (b : Box) : Nat := b.w * b.h

/-- Python's built-in `max(seq, key=f)` over a nonempty sequence: the
running best is replaced only when the new key is strictly greater, so
the first element attaining the maximum key wins.  Models
`max(faces, key=lambda x: x[2] * x[3])`. -/
def pymax (key : α → Nat) (x : α) (xs : List α) : α :=
  xs.foldl (fun best a => if key best < key a then a else best) x

/-- Python dict assignment `d[k] = v`: an existing key keeps its
position in iteration order and gets the new value; a fresh key is
appended at the end.  Galleries are association lists in dict
iteration (insertion) order. -/
def dictInsert (k : String) (v : β) : List (String × β) → List (String × β)
  | [] => [(k, v)]
  | (k2, v2) :: rest =>
      if k2 == k then (k, v) :: rest else (k2, v2) :: dictInsert k v rest

/-- Python dict lookup `d[k]` (as an option): first entry with the key. -/
def dictGet (g : List (String × β)) (k : String) : Option β :=
  (g.find? (fun e => e.1 == k)).map (fun e => e.2)

/-- Python `k in d`. -/
def isKey (g : List (String × β)) (k : String) : Bool :=
  g.any (fun e => e.1 == k)

/-- One row of the roster query
`SELECT student_id, first_name, last_name, photo_path FROM students
WHERE active = TRUE AND photo_path IS NOT NULL`. -/
structure Student where
  student_id : String
  first_name : String
  last_name : String
  photo_path : String
  deriving DecidableEq

/-- The per-identity value stored in `self.reference_faces`:
`{'name': ..., 'face_roi': ..., 'face_coords': (x, y, w, h)}`. -/
structure RefData (Img : Type) where
  name : String
  face_roi : Img
  face_coords : Box

/-- `self.reference_faces`, a Python dict in insertion order. -/
abbrev Gallery (Img : Type) := List (String × RefData Img)

/-- The external capabilities used by `load_reference_faces`:
`Path(p).exists()`, whether `cv2.imread(p)` succeeds, the face boxes
`detectMultiScale` finds in the grayscale photo at `p`, and the pixel
crop `gray[y:y+h, x:x+w]` of a box of that photo. -/
structure PhotoEnv (Img : Type) where
  pathExists : String → Bool
  imreadOk : String → Bool
  detect : String → List Box
  crop : String → Box → Img

/-- The body of the `for student in students:` loop of
`load_reference_faces`: skip the student when the photo path does not
exist, the image does not load, or no face is detected; otherwise crop
the largest detected face (first on ties, as Python `max`) and store
it under the student's id. -/
def processStudent (env : PhotoEnv Img) (gallery : Gallery Img) (s : Student) :
    Gallery Img :=
  if env.pathExists s.photo_path then
    if env.imreadOk s.photo_path then
      match env.detect s.photo_path with
      | [] => gallery
      | f :: fs =>
          let largest := pymax boxArea f fs
          dictInsert s.student_id
            { name := s.first_name ++ " " ++ s.last_name
              face_roi := env.crop s.photo_path largest
              face_coords := largest } gallery
    else gallery
  else gallery

/-- A roster row yields a gallery entry exactly when its photo exists,
loads, and contains at least one detected face. -/
def qualifies (env : PhotoEnv Img) (s : Student) : Bool :=
  env.pathExists s.photo_path && env.imreadOk s.photo_path &&
    !(env.detect s.photo_path).isEmpty

/-- `AttendanceSystem.load_reference_faces`: folds the roster rows over
the current `self.reference_faces` dict (which is never cleared), one
`processStudent` step per row.  The Python function has no `return`
statement, so a call to it evaluates to `None`; the first component
models that returned value (always `none`), the second the updated
`self.reference_faces`. -/
def load_reference_faces (env : PhotoEnv Img) (gallery : Gallery Img)
    (students : List Student) : Option Nat × Gallery Img :=
  (none, students.foldl (processStudent env) gallery)

/-- What `main()` does after constructing the system: report the empty
gallery and return, or proceed into `run_attendance`. -/
inductive MainOutcome
  | emptyGalleryReport
  | ranAttendance
  deriving DecidableEq

/-- `main()`: construct the system (whose `__init__` builds
`self.reference_faces` starting from the empty dict), then either stop
with the "no reference faces loaded!" report when the gallery is empty
or invoke `run_attendance`. -/
def pymain (env : PhotoEnv Img) (students : List Student) :
    MainOutcome × Gallery Img :=
  let g := (load_reference_faces env [] students).2
  if g.length == 0 then (MainOutcome.emptyGalleryReport, g)
  else (MainOutcome.ranAttendance, g)

/-- The fixed recognition threshold `threshold = 0.6` of
`recognize_face`. -/
def recognitionThreshold : Rat := 6 / 10

/-- One iteration of the `for student_id, ref_data in
self.reference_faces.items():` loop of `recognize_face`: compare the
input crop with the entry's stored face and replace the running best
only on a strictly greater confidence. -/
def recogStep (compare : Img → Img → Rat) (face_roi : Img)
    (acc : Option String × Rat) (e : String × RefData Img) :
    Option String × Rat :=
  let confidence := compare face_roi e.2.face_roi
  if acc.2 < confidence then (some e.1, confidence) else acc

/-- `AttendanceSystem.recognize_face`: scan the whole gallery tracking
`(best_match, best_confidence)` from `(None, 0.0)`, then return the
best match only when the best confidence strictly exceeds the
threshold, and the best confidence either way.  The external
`compare_faces` (resize plus `cv2.matchTemplate` normalized
cross-correlation) is a parameter. -/
def recognize_face (compare : Img → Img → Rat) (face_roi : Img)
    (gallery : Gallery Img) : Option String × Rat :=
  let best := gallery.foldl (recogStep compare face_roi) (none, 0)
  if recognitionThreshold < best.2 then best else (none, best.2)

/-- The comparison score of one gallery entry against the input crop. -/
def scoreOf (compare : Img → Img → Rat) (face_roi : Img)
    (e : String × RefData Img) : Rat :=
  compare face_roi e.2.face_roi

/-- A row of the `attendance` table as inserted by
`record_attendance`: `(student_id, class_date, check_in_time, status,
confidence)`.  Dates and timestamps are abstract naturals. -/
structure AttRecord where
  student_id : String
  class_date : Nat
  check_in_time : Nat
  status : String
  confidence : Rat
  deriving DecidableEq

/-- The three observable outcomes of `record_attendance` (the Python
function signals them by distinct log messages; its boolean return
value maps `Recorded` to `True` and the other two to `False`). -/
inductive RecordOutcome
  | Recorded
  | AlreadyRecorded
  | Failed
  deriving DecidableEq

/-- The duplicate check `SELECT id FROM attendance WHERE student_id = ?
AND class_date = ?`. -/
def hasRecord (db : List AttRecord) (sid : String) (d : Nat) : Bool :=
  db.any (fun r => r.student_id == sid && r.class_date == d)

/-- `AttendanceSystem.record_attendance`: if a record for
`(student_id, today)` already exists, return without modification;
otherwise attempt the insert, which the store may reject (`insertOk`
models whether the `INSERT` raises), in which case the `except` branch
returns `Failed` with the store unchanged. -/
def record_attendance (db : List AttRecord) (insertOk : Bool)
    (sid : String) (confidence : Rat) (today now : Nat) :
    RecordOutcome × List AttRecord :=
  if hasRecord db sid today then (RecordOutcome.AlreadyRecorded, db)
  else if insertOk then
    (RecordOutcome.Recorded,
      db ++ [{ student_id := sid, class_date := today, check_in_time := now
               status := "present", confidence := confidence }])
  else (RecordOutcome.Failed, db)

/-- The number of stored attendance rows for `(sid, d)`. -/
def countRecords (db : List AttRecord) (sid : String) (d : Nat) : Nat :=
  db.countP (fun r => r.student_id == sid && r.class_date == d)

/-- Restatement of the spec's selection rule for the canonical face,
in the spec's words: the first box in the detection result whose area
is at least the area of every box ("largest bounding-box area, ties
broken by first-encountered"). -/
def firstLargestBox (l : List Box) : Option Box :=
  l.find? (fun b => l.all (fun b2 => boxArea b2 ≤ boxArea b))

/-- A concrete gallery entry over the trivial image type, for
instantiating the general theorems. -/
def unitEntry (sid : String) : String × RefData Unit :=
  (sid, { name := sid, face_roi := (),
          face_coords := { x := 0, y := 0, w := 1, h := 1 } })

/-- A constant comparison capability over the trivial image type. -/
def constCompare (q : Rat) : Unit → Unit → Rat := fun _ _ => q

/-- A concrete photo environment in which every photo exists, loads,
and yields the given detection boxes. -/
def unitEnv (boxes : List Box) : PhotoEnv Unit :=
  { pathExists := fun _ => true, imreadOk := fun _ => true,
    detect := fun _ => boxes, crop := fun _ _ => () }

/-- A concrete photo environment in which no photo path exists. -/
def emptyEnv : PhotoEnv Unit :=
  { pathExists := fun _ => false, imreadOk := fun _ => false,
    detect := fun _ => [], crop := fun _ _ => () }

/-- A concrete roster row for instantiating the general theorems. -/
def stu (sid path : String) : Student :=
  { student_id := sid, first_name := "a", last_name := "b",
    photo_path := path }

/-- A concrete 2x3 box (area 6). -/
def boxA : Box := { x := 0, y := 0, w := 2, h := 3 }

/-- A concrete 3x2 box (area 6, tied with `boxA`). -/
def boxB : Box := { x := 1, y := 1, w := 3, h := 2 }

/-- A concrete 1x1 box (area 1). -/
def boxC : Box := { x := 0, y := 0, w := 1, h := 1 }

/-! ### Helper lemmas: dictionaries -/

theorem isKey_cons (e : String × β) (g : List (String × β)) (k : String) :
    isKey (e :: g) k = (e.1 == k || isKey g k) := by
  simp [isKey]

theorem dictGet_dictInsert_self (k : String) (v : β) :
    ∀ g : List (String × β), dictGet (dictInsert k v g) k = some v := by
  intro g
  induction g with
  | nil =>
      show dictGet [(k, v)] k = some v
      unfold dictGet
      rw [List.find?_cons_of_pos _ (by simp)]
      rfl
  | cons e rest ih =>
      obtain ⟨k2, v2⟩ := e
      show dictGet (if k2 == k then (k, v) :: rest
        else (k2, v2) :: dictInsert k v rest) k = some v
      by_cases h : (k2 == k) = true
      · rw [if_pos h]
        unfold dictGet
        rw [List.find?_cons_of_pos _ (by simp)]
        rfl
      · rw [if_neg h]
        unfold dictGet at ih ⊢
        rw [List.find?_cons_of_neg _ (by simpa using h)]
        exact ih

theorem isKey_dictInsert (k k2 : String) (v : β) :
    ∀ g : List (String × β),
      (isKey (dictInsert k v g) k2 = true ↔ k2 = k ∨ isKey g k2 = true) := by
  intro g
  induction g with
  | nil =>
      show isKey [(k, v)] k2 = true ↔
        k2 = k ∨ isKey ([] : List (String × β)) k2 = true
      rw [isKey_cons]
      simp only [isKey, List.any_nil, Bool.or_false, beq_iff_eq]
      constructor
      · exact fun h1 => Or.inl h1.symm
      · rintro (h1 | h1)
        · exact h1.symm
        · simp at h1
  | cons e rest ih =>
      obtain ⟨k3, v3⟩ := e
      show isKey (if k3 == k then (k, v) :: rest
        else (k3, v3) :: dictInsert k v rest) k2 = true ↔ _
      by_cases h : (k3 == k) = true
      · rw [if_pos h]
        have hk : k3 = k := by simpa using h
        subst hk
        rw [isKey_cons, isKey_cons]
        constructor
        · exact fun h1 => Or.inr h1
        · rintro (h1 | h1)
          · subst h1; simp
          · exact h1
      · rw [if_neg h]
        rw [isKey_cons, isKey_cons]
        simp only [Bool.or_eq_true]
        constructor
        · rintro (h1 | h1)
          · exact Or.inr (Or.inl h1)
          · rcases ih.mp h1 with h2 | h2
            · exact Or.inl h2
            · exact Or.inr (Or.inr h2)
        · rintro (h1 | h1 | h1)
          · exact Or.inr (ih.mpr (Or.inl h1))
          · exact Or.inl h1
          · exact Or.inr (ih.mpr (Or.inr h1))

theorem length_dictInsert_of_not_key (k : String) (v : β) :
    ∀ g : List (String × β), isKey g k = false →
      (dictInsert k v g).length = g.length + 1 := by
  intro g
  induction g with
  | nil => intro _; rfl
  | cons e rest ih =>
      obtain ⟨k2, v2⟩ := e
      intro hkey
      rw [isKey_cons, Bool.or_eq_false_iff] at hkey
      obtain ⟨h2, hrest⟩ := hkey
      show (if k2 == k then (k, v) :: rest
        else (k2, v2) :: dictInsert k v rest).length = _
      rw [if_neg (by simp [h2])]
      simp [ih hrest]

theorem dictGet_isSome_of_mem (k : String) (v : β) :
    ∀ g : List (String × β), (k, v) ∈ g → (dictGet g k).isSome = true := by
  intro g
  induction g with
  | nil => intro h; simp at h
  | cons e rest ih =>
      intro hmem
      by_cases h : (e.1 == k) = true
      · have hfind : List.find? (fun e => e.1 == k) (e :: rest) = some e :=
          List.find?_cons_of_pos _ h
        unfold dictGet
        rw [hfind]
        rfl
      · have hfind : List.find? (fun e => e.1 == k) (e :: rest)
            = List.find? (fun e => e.1 == k) rest :=
          List.find?_cons_of_neg _ h
        unfold dictGet at ih ⊢
        rw [hfind]
        rcases List.mem_cons.mp hmem with h1 | h1
        · exfalso; rw [← h1] at h; simp at h
        · exact ih h1

/-! ### Helper lemmas: Python max -/

theorem key_le_pymax_seed (key : α → Nat) :
    ∀ (xs : List α) (x : α), key x ≤ key (pymax key x xs) := by
  intro xs
  induction xs with
  | nil => intro x; exact Nat.le_refl _
  | cons a t ih =>
      intro x
      show key x ≤ key (pymax key (if key x < key a then a else x) t)
      by_cases h : key x < key a
      · simp only [h, if_true]
        exact Nat.le_trans (Nat.le_of_lt h) (ih a)
      · simp only [h, if_false]
        exact ih x

theorem mem_le_pymax (key : α → Nat) :
    ∀ (xs : List α) (x b : α), b ∈ xs → key b ≤ key (pymax key x xs) := by
  intro xs
  induction xs with
  | nil => intro x b hb; simp at hb
  | cons a t ih =>
      intro x b hb
      show key b ≤ key (pymax key (if key x < key a then a else x) t)
      rcases List.mem_cons.mp hb with h1 | h1
      · subst h1
        by_cases h : key x < key b
        · simp only [h, if_true]
          exact key_le_pymax_seed key t b
        · simp only [h, if_false]
          exact Nat.le_trans (Nat.le_of_not_lt h) (key_le_pymax_seed key t x)
      · exact ih _ b h1

theorem pymax_mem (key : α → Nat) :
    ∀ (xs : List α) (x : α), pymax key x xs ∈ x :: xs := by
  intro xs
  induction xs with
  | nil => intro x; simp [pymax]
  | cons a t ih =>
      intro x
      show pymax key (if key x < key a then a else x) t ∈ _
      by_cases h : key x < key a
      · simp only [h, if_true]
        rcases List.mem_cons.mp (ih a) with h1 | h1
        · rw [h1]; simp
        · exact List.mem_cons_of_mem _ (List.mem_cons_of_mem _ h1)
      · simp only [h, if_false]
        rcases List.mem_cons.mp (ih x) with h1 | h1
        · rw [h1]; simp
        · exact List.mem_cons_of_mem _ (List.mem_cons_of_mem _ h1)

theorem pymax_first_decomp (key : α → Nat) :
    ∀ (xs : List α) (x : α), ∃ l1 l2, x :: xs = l1 ++ pymax key x xs :: l2 ∧
      ∀ b ∈ l1, key b < key (pymax key x xs) := by
  intro xs
  induction xs with
  | nil =>
      intro x
      exact ⟨[], [], by simp [pymax], by simp⟩
  | cons a t ih =>
      intro x
      have hstep : pymax key x (a :: t)
          = pymax key (if key x < key a then a else x) t := rfl
      by_cases h : key x < key a
      · obtain ⟨l1, l2, hdec, hlt⟩ := ih a
        refine ⟨x :: l1, l2, ?_, ?_⟩
        · rw [hstep]; simp only [h, if_true]
          simpa using congrArg (List.cons x) hdec
        · intro b hb
          rw [hstep]; simp only [h, if_true]
          rcases List.mem_cons.mp hb with h1 | h1
          · subst h1
            exact Nat.lt_of_lt_of_le h (key_le_pymax_seed key t a)
          · exact hlt b h1
      · obtain ⟨l1, l2, hdec, hlt⟩ := ih x
        have hres : pymax key x (a :: t) = pymax key x t := by
          rw [hstep]; simp only [h, if_false]
        cases l1 with
        | nil =>
            have hx : pymax key x t = x := by
              have h0 := (List.cons.inj (by simpa using hdec)).1
              exact h0.symm
            refine ⟨[], a :: t, ?_, by simp⟩
            rw [hres, hx]
            rfl
        | cons y l1t =>
            rw [List.cons_append] at hdec
            obtain ⟨hxy, ht⟩ := List.cons.inj hdec
            rw [← hxy] at hlt
            refine ⟨x :: a :: l1t, l2, ?_, ?_⟩
            · rw [hres]
              simpa using congrArg (fun l => x :: a :: l) ht
            · intro b hb
              rw [hres]
              have hx_lt : key x < key (pymax key x t) := hlt x (by simp)
              rcases List.mem_cons.mp hb with h1 | h1
              · subst h1
                exact hx_lt
              · rcases List.mem_cons.mp h1 with h2 | h2
                · subst h2
                  exact Nat.lt_of_le_of_lt (Nat.le_of_not_lt h) hx_lt
                · exact hlt b (by simp [h2])

theorem find?_first_max (key : α → Nat) (x : α) (xs : List α) :
    (x :: xs).find? (fun b => (x :: xs).all (fun c => key c ≤ key b))
      = some (pymax key x xs) := by
  obtain ⟨l1, l2, hdec, hlt⟩ := pymax_first_decomp key xs x
  set r := pymax key x xs with hr
  have hmemr : r ∈ x :: xs := pymax_mem key xs x
  have hmax : ∀ c ∈ x :: xs, key c ≤ key r := by
    intro c hc
    rcases List.mem_cons.mp hc with h1 | h1
    · rw [h1]; exact key_le_pymax_seed key xs x
    · exact mem_le_pymax key xs x c h1
  rw [hdec] at hmax hmemr ⊢
  have hnone : l1.find? (fun b => (l1 ++ r :: l2).all (fun c => key c ≤ key b))
      = none := by
    rw [List.find?_eq_none]
    intro b hb
    simp only [List.all_eq_true, decide_eq_true_eq]
    push_neg
    exact ⟨r, hmemr, hlt b hb⟩
  have hfr : (fun b => (l1 ++ r :: l2).all (fun c => key c ≤ key b)) r = true := by
    simp only [List.all_eq_true, decide_eq_true_eq]
    exact hmax
  have hcons : List.find?
      (fun b => (l1 ++ r :: l2).all (fun c => key c ≤ key b)) (r :: l2)
      = some r :=
    List.find?_cons_of_pos _ hfr
  rw [List.find?_append, hnone, Option.none_or, hcons]

/-! ### Helper lemmas: the recognition fold -/

theorem recogStep_snd (compare : Img → Img → Rat) (roi : Img)
    (acc : Option String × Rat) (e : String × RefData Img) :
    (recogStep compare roi acc e).2 = max acc.2 (scoreOf compare roi e) := by
  by_cases h : acc.2 < compare roi e.2.face_roi
  · simp [recogStep, scoreOf, h, max_eq_right (le_of_lt h)]
  · simp [recogStep, scoreOf, h, max_eq_left (not_lt.mp h)]

theorem recogFold_conf (compare : Img → Img → Rat) (roi : Img) :
    ∀ (l : Gallery Img) (m : Option String) (c : Rat),
      (l.foldl (recogStep compare roi) (m, c)).2
        = l.foldl (fun b x => max b (scoreOf compare roi x)) c := by
  intro l
  induction l with
  | nil => intro m c; rfl
  | cons e t ih =>
      intro m c
      rcases hst : recogStep compare roi (m, c) e with ⟨m1, c1⟩
      have hc1 : c1 = max c (scoreOf compare roi e) := by
        have h2 := recogStep_snd compare roi (m, c) e
        rw [hst] at h2
        simpa using h2
      rw [List.foldl_cons, List.foldl_cons, hst, ih, hc1]

theorem foldl_max_le (f : α → Rat) (t : Rat) :
    ∀ (l : List α) (c : Rat), c ≤ t → (∀ x ∈ l, f x ≤ t) →
      l.foldl (fun b x => max b (f x)) c ≤ t := by
  intro l
  induction l with
  | nil => intro c hc _; simpa using hc
  | cons a s ih =>
      intro c hc hall
      rw [List.foldl_cons]
      exact ih _ (max_le hc (hall a (by simp))) (fun x hx => hall x (by simp [hx]))

theorem recogFold_cases (compare : Img → Img → Rat) (roi : Img) :
    ∀ (l : Gallery Img) (m : Option String) (c : Rat),
      (l.foldl (recogStep compare roi) (m, c) = (m, c) ∧
        ∀ x ∈ l, scoreOf compare roi x ≤ c)
      ∨ (∃ pre e post, l = pre ++ e :: post ∧
          l.foldl (recogStep compare roi) (m, c)
            = (some e.1, scoreOf compare roi e) ∧
          c < scoreOf compare roi e ∧
          (∀ x ∈ pre, scoreOf compare roi x < scoreOf compare roi e) ∧
          (∀ x ∈ post, scoreOf compare roi x ≤ scoreOf compare roi e)) := by
  intro l
  induction l with
  | nil => intro m c; exact Or.inl ⟨rfl, by simp⟩
  | cons a t ih =>
      intro m c
      by_cases h : c < compare roi a.2.face_roi
      · have hstep : recogStep compare roi (m, c) a
            = (some a.1, compare roi a.2.face_roi) := by
          simp [recogStep, h]
        rcases ih (some a.1) (compare roi a.2.face_roi) with
          ⟨heq, hall⟩ | ⟨pre, e, post, hdec, hres, hc, hpre, hpost⟩
        · right
          refine ⟨[], a, t, by simp, ?_, h, by simp, hall⟩
          rw [List.foldl_cons, hstep, heq]
          rfl
        · right
          refine ⟨a :: pre, e, post, by simp [hdec], ?_, ?_, ?_, hpost⟩
          · rw [List.foldl_cons, hstep, hres]
          · exact lt_trans h hc
          · intro x hx
            rcases List.mem_cons.mp hx with h1 | h1
            · rw [h1]; exact hc
            · exact hpre x h1
      · have hstep : recogStep compare roi (m, c) a = (m, c) := by
          simp [recogStep, h]
        rcases ih m c with
          ⟨heq, hall⟩ | ⟨pre, e, post, hdec, hres, hc, hpre, hpost⟩
        · left
          refine ⟨?_, ?_⟩
          · rw [List.foldl_cons, hstep, heq]
          · intro x hx
            rcases List.mem_cons.mp hx with h1 | h1
            · rw [h1]; exact not_lt.mp h
            · exact hall x h1
        · right
          refine ⟨a :: pre, e, post, by simp [hdec], ?_, hc, ?_, hpost⟩
          · rw [List.foldl_cons, hstep, hres]
          · intro x hx
            rcases List.mem_cons.mp hx with h1 | h1
            · rw [h1]; exact lt_of_le_of_lt (not_lt.mp h) hc
            · exact hpre x h1

/-! ### Helper lemmas: the gallery fold -/

theorem processStudent_not_qualifies (env : PhotoEnv Img) (g : Gallery Img)
    (s : Student) (h : qualifies env s = false) : processStudent env g s = g := by
  unfold qualifies at h
  unfold processStudent
  by_cases h1 : env.pathExists s.photo_path = true
  · rw [if_pos h1]
    by_cases h2 : env.imreadOk s.photo_path = true
    · rw [if_pos h2]
      rw [h1, h2] at h
      simp only [Bool.true_and] at h
      have hdet : env.detect s.photo_path = [] := by
        cases hd : env.detect s.photo_path with
        | nil => rfl
        | cons f fs => rw [hd] at h; simp at h
      rw [hdet]
    · rw [if_neg h2]
  · rw [if_neg h1]

theorem processStudent_qualifies (env : PhotoEnv Img) (g : Gallery Img)
    (s : Student) (f : Box) (fs : List Box)
    (hpe : env.pathExists s.photo_path = true)
    (hio : env.imreadOk s.photo_path = true)
    (hdet : env.detect s.photo_path = f :: fs) :
    processStudent env g s = dictInsert s.student_id
      { name := s.first_name ++ " " ++ s.last_name
        face_roi := env.crop s.photo_path (pymax boxArea f fs)
        face_coords := pymax boxArea f fs } g := by
  unfold processStudent
  rw [if_pos hpe, if_pos hio, hdet]

theorem isKey_processStudent (env : PhotoEnv Img) (g : Gallery Img)
    (s : Student) (k : String) :
    (isKey (processStudent env g s) k = true ↔
      (qualifies env s = true ∧ s.student_id = k) ∨ isKey g k = true) := by
  by_cases hq : qualifies env s = true
  · have hq2 := hq
    unfold qualifies at hq2
    rw [Bool.and_eq_true, Bool.and_eq_true] at hq2
    obtain ⟨⟨hpe, hio⟩, hne⟩ := hq2
    cases hd : env.detect s.photo_path with
    | nil => rw [hd] at hne; simp at hne
    | cons f fs =>
        rw [processStudent_qualifies env g s f fs hpe hio hd]
        rw [isKey_dictInsert]
        constructor
        · rintro (h1 | h1)
          · exact Or.inl ⟨hq, h1.symm⟩
          · exact Or.inr h1
        · rintro (⟨_, h1⟩ | h1)
          · exact Or.inl h1.symm
          · exact Or.inr h1
  · have hq0 : qualifies env s = false := by
      cases hc : qualifies env s
      · rfl
      · exact absurd hc hq
    rw [processStudent_not_qualifies env g s hq0]
    constructor
    · exact fun h1 => Or.inr h1
    · rintro (⟨h1, _⟩ | h1)
      · exact absurd h1 hq
      · exact h1

theorem isKey_load_reference_faces (env : PhotoEnv Img) :
    ∀ (students : List Student) (g : Gallery Img) (k : String),
      (isKey (load_reference_faces env g students).2 k = true ↔
        isKey g k = true ∨
          ∃ s ∈ students, qualifies env s = true ∧ s.student_id = k) := by
  intro students
  induction students with
  | nil => intro g k; simp [load_reference_faces]
  | cons s t ih =>
      intro g k
      show isKey (t.foldl (processStudent env) (processStudent env g s)) k = true ↔ _
      have hih := ih (processStudent env g s) k
      rw [show (load_reference_faces env (processStudent env g s) t).2
        = t.foldl (processStudent env) (processStudent env g s) from rfl] at hih
      rw [hih, isKey_processStudent]
      constructor
      · rintro ((h1 | h1) | ⟨s2, hs2, h2⟩)
        · exact Or.inr ⟨s, by simp, h1⟩
        · exact Or.inl h1
        · exact Or.inr ⟨s2, by simp [hs2], h2⟩
      · rintro (h1 | ⟨s2, hs2, h2⟩)
        · exact Or.inl (Or.inr h1)
        · rcases List.mem_cons.mp hs2 with h3 | h3
          · exact Or.inl (Or.inl (h3 ▸ h2))
          · exact Or.inr ⟨s2, h3, h2⟩

theorem length_load_reference_faces (env : PhotoEnv Img) :
    ∀ (students : List Student) (g : Gallery Img),
      (students.map Student.student_id).Nodup →
      (∀ s ∈ students, qualifies env s = true → isKey g s.student_id = false) →
      (load_reference_faces env g students).2.length
        = g.length + students.countP (qualifies env) := by
  intro students
  induction students with
  | nil => intro g _ _; simp [load_reference_faces]
  | cons s t ih =>
      intro g hnd hfresh
      rw [List.map_cons, List.nodup_cons] at hnd
      obtain ⟨hsid_notin, hnd2⟩ := hnd
      show (t.foldl (processStudent env) (processStudent env g s)).length = _
      have hih := ih (processStudent env g s)
      rw [show (load_reference_faces env (processStudent env g s) t).2
        = t.foldl (processStudent env) (processStudent env g s) from rfl] at hih
      by_cases hq : qualifies env s = true
      · have hq2 := hq
        unfold qualifies at hq2
        rw [Bool.and_eq_true, Bool.and_eq_true] at hq2
        obtain ⟨⟨hpe, hio⟩, hne⟩ := hq2
        have hlen : (processStudent env g s).length = g.length + 1 := by
          cases hd : env.detect s.photo_path with
          | nil => rw [hd] at hne; simp at hne
          | cons f fs =>
              rw [processStudent_qualifies env g s f fs hpe hio hd]
              exact length_dictInsert_of_not_key _ _ g (hfresh s (by simp) hq)
        have hfresh2 : ∀ s2 ∈ t, qualifies env s2 = true →
            isKey (processStudent env g s) s2.student_id = false := by
          intro s2 hs2 hq2
          have hnekey : s2.student_id ≠ s.student_id := by
            intro hcon
            exact hsid_notin (hcon ▸ List.mem_map_of_mem _ hs2)
          have hgf : isKey g s2.student_id = false := hfresh s2 (by simp [hs2]) hq2
          cases hck : isKey (processStudent env g s) s2.student_id
          · rfl
          · exfalso
            rcases (isKey_processStudent env g s s2.student_id).mp hck
              with ⟨_, heq⟩ | hkey
            · exact hnekey heq.symm
            · rw [hgf] at hkey; cases hkey
        rw [hih hnd2 hfresh2, hlen, List.countP_cons]
        simp only [hq, if_true]
        omega
      · have hq0 : qualifies env s = false := by
          cases hc : qualifies env s
          · rfl
          · exact absurd hc hq
        have hp : processStudent env g s = g := processStudent_not_qualifies env g s hq0
        rw [hp] at hih ⊢
        rw [hih hnd2 (fun s2 hs2 => hfresh s2 (by simp [hs2])), List.countP_cons]
        simp only [hq0, Bool.false_eq_true, if_false]
        omega

/-- Unfolding equation for `recognize_face`. -/
theorem recognize_face_eq (compare : Img → Img → Rat) (roi : Img)
    (gallery : Gallery Img) :
    recognize_face compare roi gallery =
      if recognitionThreshold
          < (gallery.foldl (recogStep compare roi) (none, 0)).2
      then gallery.foldl (recogStep compare roi) (none, 0)
      else (none, (gallery.foldl (recogStep compare roi) (none, 0)).2) := rfl

/-! ### Claim theorems -/

/-- C6: on an empty gallery, `recognize_face` returns no matched
identity and confidence 0, for every comparison capability and every
input face crop. -/
theorem recognize_face_empty (compare : Img → Img → Rat) (roi : Img) :
    recognize_face compare roi ([] : Gallery Img) = (none, 0) := by
  rw [recognize_face_eq, List.foldl_nil, if_neg]
  norm_num [recognitionThreshold]

/-- C3 counterexample: a one-entry gallery in which the (maximum)
comparison score is `-1/2`.  `recognize_face` returns confidence 0 —
the initial value of the running best — not the maximum observed score
`-1/2`, so the claim that the maximum score is reported "even when
negative" is false on the code. -/
theorem recognize_face_negative_score_counterexample :
    recognize_face (constCompare (-1/2)) () ([unitEntry "s3"] : Gallery Unit)
      = (none, 0)
    ∧ (∀ x ∈ ([unitEntry "s3"] : Gallery Unit),
        scoreOf (constCompare (-1/2)) () x = -1/2)
    ∧ recognize_face (constCompare (-1/2)) () ([unitEntry "s3"] : Gallery Unit)
        ≠ (none, -1/2) := by
  refine ⟨?_, ?_, ?_⟩
  · norm_num [recognize_face, recogStep, recognitionThreshold, unitEntry,
      constCompare]
  · norm_num [scoreOf, unitEntry, constCompare]
  · norm_num [recognize_face, recogStep, recognitionThreshold, unitEntry,
      constCompare]

/-- C3 amended: for a non-empty gallery in which no entry's score
strictly exceeds the threshold 0.6, `recognize_face` returns no
matched identity together with the maximum of 0 and the highest
comparison score (`best_confidence` starts at 0.0, so a negative best
score is reported as 0; a nonnegative best score is reported
exactly). -/
theorem recognize_face_below_threshold (compare : Img → Img → Rat) (roi : Img)
    (gallery : Gallery Img) (hne : gallery ≠ [])
    (hall : ∀ x ∈ gallery, scoreOf compare roi x ≤ recognitionThreshold) :
    recognize_face compare roi gallery
      = (none, gallery.foldl (fun b x => max b (scoreOf compare roi x)) 0) := by
  have hconf := recogFold_conf compare roi gallery none 0
  have hle : gallery.foldl (fun b x => max b (scoreOf compare roi x)) 0
      ≤ recognitionThreshold :=
    foldl_max_le _ _ gallery 0 (by norm_num [recognitionThreshold]) hall
  rw [recognize_face_eq, if_neg]
  · rw [hconf]
  · rw [hconf]
    exact not_lt.mpr hle

/-- Witness for the amended C3: one entry scoring 1/2 ≤ 0.6. -/
theorem recognize_face_below_threshold_witness :
    recognize_face (constCompare (1/2)) () ([unitEntry "s3w"] : Gallery Unit)
      = (none, ([unitEntry "s3w"] : Gallery Unit).foldl
          (fun b x => max b (scoreOf (constCompare (1/2)) () x)) 0) :=
  recognize_face_below_threshold (constCompare (1/2)) () [unitEntry "s3w"]
    (by simp) (by norm_num [scoreOf, unitEntry, constCompare, recognitionThreshold])

/-- C5: whenever `recognize_face` returns a matched identity, that
identity is the first gallery entry (in dict insertion/iteration
order) attaining the maximum comparison score — every earlier entry
scores strictly less and every entry scores at most it — and the
returned confidence, which is that maximum, strictly exceeds the
threshold 0.6. -/
theorem recognize_face_first_of_ties (compare : Img → Img → Rat) (roi : Img)
    (gallery : Gallery Img) (i : String)
    (h : (recognize_face compare roi gallery).1 = some i) :
    recognitionThreshold < (recognize_face compare roi gallery).2
    ∧ ∃ pre e post, gallery = pre ++ e :: post ∧ e.1 = i
      ∧ (recognize_face compare roi gallery).2 = scoreOf compare roi e
      ∧ (∀ x ∈ pre, scoreOf compare roi x < scoreOf compare roi e)
      ∧ (∀ x ∈ gallery, scoreOf compare roi x ≤ scoreOf compare roi e) := by
  rw [recognize_face_eq] at h ⊢
  by_cases ht : recognitionThreshold
      < (gallery.foldl (recogStep compare roi) (none, 0)).2
  · rw [if_pos ht] at h ⊢
    rcases recogFold_cases compare roi gallery none 0 with
      ⟨heq, _⟩ | ⟨pre, e, post, hdec, hres, _, hpre, hpost⟩
    · rw [heq] at h; cases h
    · rw [hres] at h ht ⊢
      have hei : e.1 = i := by simpa using h
      refine ⟨ht, pre, e, post, hdec, hei, rfl, hpre, ?_⟩
      intro x hx
      rw [hdec] at hx
      rcases List.mem_append.mp hx with h1 | h1
      · exact le_of_lt (hpre x h1)
      · rcases List.mem_cons.mp h1 with h2 | h2
        · rw [h2]
        · exact hpost x h2
  · rw [if_neg ht] at h
    cases h

/-- Witness for C5: two entries tied at score 7/10 > 0.6; the first
("a") is returned. -/
theorem recognize_face_first_of_ties_witness :
    recognitionThreshold
      < (recognize_face (constCompare (7/10)) ()
          ([unitEntry "a", unitEntry "b"] : Gallery Unit)).2
    ∧ ∃ pre e post,
        ([unitEntry "a", unitEntry "b"] : Gallery Unit) = pre ++ e :: post
      ∧ e.1 = "a"
      ∧ (recognize_face (constCompare (7/10)) ()
          ([unitEntry "a", unitEntry "b"] : Gallery Unit)).2
          = scoreOf (constCompare (7/10)) () e
      ∧ (∀ x ∈ pre, scoreOf (constCompare (7/10)) () x
          < scoreOf (constCompare (7/10)) () e)
      ∧ (∀ x ∈ ([unitEntry "a", unitEntry "b"] : Gallery Unit),
          scoreOf (constCompare (7/10)) () x
            ≤ scoreOf (constCompare (7/10)) () e) :=
  recognize_face_first_of_ties (constCompare (7/10)) ()
    [unitEntry "a", unitEntry "b"] "a"
    (by norm_num [recognize_face, recogStep, recognitionThreshold, unitEntry,
      constCompare])

/-- C10: whenever `recognize_face` returns a matched identity, that
identity is a key of the gallery it scanned — so the capture loop's
name lookup `self.reference_faces[student_id]` succeeds — and the
returned confidence strictly exceeds 0.6. -/
theorem recognize_face_match_in_gallery (compare : Img → Img → Rat) (roi : Img)
    (gallery : Gallery Img) (i : String)
    (h : (recognize_face compare roi gallery).1 = some i) :
    (dictGet gallery i).isSome = true
    ∧ isKey gallery i = true
    ∧ recognitionThreshold < (recognize_face compare roi gallery).2 := by
  rw [recognize_face_eq] at h ⊢
  by_cases ht : recognitionThreshold
      < (gallery.foldl (recogStep compare roi) (none, 0)).2
  · rw [if_pos ht] at h ⊢
    rcases recogFold_cases compare roi gallery none 0 with
      ⟨heq, _⟩ | ⟨pre, e, post, hdec, hres, _, _, _⟩
    · rw [heq] at h; cases h
    · rw [hres] at h
      have hei : e.1 = i := by simpa using h
      have hmem : e ∈ gallery := by
        rw [hdec]
        exact List.mem_append.mpr (Or.inr (by simp))
      have hmem2 : (i, e.2) ∈ gallery := by
        have h3 : (e.1, e.2) ∈ gallery := by
          rw [Prod.mk.eta]; exact hmem
        rw [hei] at h3
        exact h3
      refine ⟨dictGet_isSome_of_mem i e.2 gallery hmem2, ?_, ht⟩
      exact List.any_eq_true.mpr ⟨e, hmem, by rw [hei]; simp⟩
  · rw [if_neg ht] at h
    cases h

/-- Witness for C10: one entry scoring 9/10 > 0.6, matched as "s1". -/
theorem recognize_face_match_in_gallery_witness :
    (dictGet ([unitEntry "s1"] : Gallery Unit) "s1").isSome = true
    ∧ isKey ([unitEntry "s1"] : Gallery Unit) "s1" = true
    ∧ recognitionThreshold
        < (recognize_face (constCompare (9/10)) ()
            ([unitEntry "s1"] : Gallery Unit)).2 :=
  recognize_face_match_in_gallery (constCompare (9/10)) ()
    [unitEntry "s1"] "s1"
    (by norm_num [recognize_face, recogStep, recognitionThreshold, unitEntry,
      constCompare])

/-- C1: for a store with no record for `(sid, today)`, a first
`record_attendance` call (with the insert accepted) returns `Recorded`
and appends exactly one record with status "present" and the supplied
confidence; a second call for the same id on the same day — whatever
its confidence, timestamp, or the store's willingness to insert —
returns `AlreadyRecorded` without modifying the store, and exactly one
record for `(sid, today)` exists afterward. -/
theorem record_attendance_idempotent (db : List AttRecord) (sid : String)
    (conf conf2 : Rat) (today now now2 : Nat) (ok2 : Bool)
    (h : hasRecord db sid today = false) :
    (record_attendance db true sid conf today now).1 = RecordOutcome.Recorded
    ∧ (record_attendance db true sid conf today now).2
        = db ++ [{ student_id := sid, class_date := today,
                   check_in_time := now, status := "present",
                   confidence := conf }]
    ∧ countRecords (record_attendance db true sid conf today now).2 sid today
        = 1
    ∧ record_attendance (record_attendance db true sid conf today now).2
        ok2 sid conf2 today now2
        = (RecordOutcome.AlreadyRecorded,
           (record_attendance db true sid conf today now).2) := by
  have h1 : record_attendance db true sid conf today now
      = (RecordOutcome.Recorded,
         db ++ [{ student_id := sid, class_date := today,
                  check_in_time := now, status := "present",
                  confidence := conf }]) := by
    unfold record_attendance
    rw [h]
    simp
  have hcount0 : countRecords db sid today = 0 := by
    unfold countRecords
    rw [List.countP_eq_zero]
    exact List.any_eq_false.mp h
  have hcount : countRecords (db ++
      [{ student_id := sid, class_date := today,
         check_in_time := now, status := "present",
         confidence := conf }]) sid today = 1 := by
    unfold countRecords at hcount0 ⊢
    rw [List.countP_append, hcount0]
    simp [List.countP_cons]
  have h2 : hasRecord (db ++
      [{ student_id := sid, class_date := today,
         check_in_time := now, status := "present",
         confidence := conf }]) sid today = true := by
    unfold hasRecord
    rw [List.any_append]
    simp
  rw [h1]
  refine ⟨rfl, rfl, hcount, ?_⟩
  unfold record_attendance
  rw [h2]
  simp

/-- Witness for C1: first and second call on an initially empty store. -/
theorem record_attendance_idempotent_witness :
    (record_attendance [] true "s1" (9/10) 3 5).1 = RecordOutcome.Recorded
    ∧ (record_attendance [] true "s1" (9/10) 3 5).2
        = [] ++ [{ student_id := "s1", class_date := 3,
                   check_in_time := 5, status := "present",
                   confidence := 9/10 }]
    ∧ countRecords (record_attendance [] true "s1" (9/10) 3 5).2 "s1" 3 = 1
    ∧ record_attendance (record_attendance [] true "s1" (9/10) 3 5).2
        true "s1" (8/10) 3 6
        = (RecordOutcome.AlreadyRecorded,
           (record_attendance [] true "s1" (9/10) 3 5).2) :=
  record_attendance_idempotent [] "s1" (9/10) (8/10) 3 5 6 true (by rfl)

/-- C8: when the store rejects the insert (the `INSERT` raises and the
`except` branch runs), `record_attendance` returns the `Failed`
outcome — it does not propagate the error — and the store is
unchanged, so no new record for `(sid, today)` exists afterward. -/
theorem record_attendance_rejected_insert (db : List AttRecord) (sid : String)
    (conf : Rat) (today now : Nat)
    (h : hasRecord db sid today = false) :
    record_attendance db false sid conf today now = (RecordOutcome.Failed, db)
    ∧ countRecords (record_attendance db false sid conf today now).2 sid today
        = countRecords db sid today := by
  have h1 : record_attendance db false sid conf today now
      = (RecordOutcome.Failed, db) := by
    unfold record_attendance
    rw [h]
    simp
  exact ⟨h1, by rw [h1]⟩

/-- Witness for C8: a rejected insert on an empty store. -/
theorem record_attendance_rejected_insert_witness :
    record_attendance [] false "s8" (7/10) 3 5 = (RecordOutcome.Failed, [])
    ∧ countRecords (record_attendance [] false "s8" (7/10) 3 5).2 "s8" 3
        = countRecords [] "s8" 3 :=
  record_attendance_rejected_insert [] "s8" (7/10) 3 5 (by rfl)

/-- C2 counterexample: rebuilding over a gallery holding an entry for
"alice" from a roster in which only "bob" qualifies leaves "alice" a
key of the gallery, contradicting the claim that after a rebuild the
gallery contains entries exactly for the currently qualifying
identities (the dict is never cleared, so stale entries survive). -/
theorem load_reference_faces_stale_counterexample :
    isKey (load_reference_faces (unitEnv [boxC])
      [unitEntry "alice"] [stu "bob" "p"]).2 "alice" = true
    ∧ isKey (load_reference_faces (unitEnv [boxC])
      [unitEntry "alice"] [stu "bob" "p"]).2 "bob" = true
    ∧ ¬ (∀ k, isKey (load_reference_faces
          (unitEnv [boxC])
          [unitEntry "alice"] [stu "bob" "p"]).2 k = true →
            ∃ s ∈ [stu "bob" "p"],
              qualifies (unitEnv [boxC]) s = true
              ∧ s.student_id = k) := by
  refine ⟨by rfl, by rfl, ?_⟩
  intro hcon
  rcases hcon "alice" (by rfl) with ⟨s, hs, _, hid⟩
  rcases List.mem_cons.mp hs with h1 | h1
  · rw [h1] at hid
    exact absurd hid (by decide)
  · simp at h1

/-- C2 amended: `load_reference_faces` upserts into the existing
gallery in place: afterwards the gallery's keys are exactly the prior
keys together with the ids of the currently qualifying roster rows —
every qualifying identity is present, but an entry whose identity no
longer qualifies is retained, not removed.  (Within the single-threaded
loop no reader runs during the rebuild.) -/
theorem load_reference_faces_keys (env : PhotoEnv Img) (gallery : Gallery Img)
    (students : List Student) (k : String) :
    (isKey (load_reference_faces env gallery students).2 k = true ↔
      isKey gallery k = true ∨
        ∃ s ∈ students, qualifies env s = true ∧ s.student_id = k) :=
  isKey_load_reference_faces env students gallery k

/-- C4 counterexample: a build from the empty gallery that successfully
loads one reference entry evaluates to `None` — the Python function has
no `return` statement — so it does not return the count of loaded
entries (1) to its caller. -/
theorem load_reference_faces_returns_none_counterexample :
    (load_reference_faces (unitEnv [boxC])
        ([] : Gallery Unit) [stu "s4" "p4"]).1 = none
    ∧ (load_reference_faces (unitEnv [boxC])
        ([] : Gallery Unit) [stu "s4" "p4"]).2.length = 1
    ∧ ∀ n : Nat, (load_reference_faces
        (unitEnv [boxC])
        ([] : Gallery Unit) [stu "s4" "p4"]).1 ≠ some n :=
  ⟨rfl, rfl, fun n h => by cases h⟩

/-- C4 amended: the call evaluates to `None` (no value is returned);
the count of successfully loaded entries reaches the caller only as
the printed message and as the size of `self.reference_faces`, which —
for a build from the empty gallery with pairwise distinct roster ids —
equals the number of roster rows whose photo exists, loads, and
contains a detectable face. -/
theorem load_reference_faces_count (env : PhotoEnv Img)
    (students : List Student)
    (hnd : (students.map Student.student_id).Nodup) :
    (load_reference_faces env ([] : Gallery Img) students).1 = none
    ∧ (load_reference_faces env ([] : Gallery Img) students).2.length
        = students.countP (qualifies env) := by
  refine ⟨rfl, ?_⟩
  have h := length_load_reference_faces env students [] hnd
    (fun s _ _ => rfl)
  simpa using h

/-- Witness for the amended C4: two distinct qualifying students. -/
theorem load_reference_faces_count_witness :
    (load_reference_faces (unitEnv [boxA])
        ([] : Gallery Unit) [stu "s1" "p", stu "s2" "q"]).1 = none
    ∧ (load_reference_faces (unitEnv [boxA])
        ([] : Gallery Unit) [stu "s1" "p", stu "s2" "q"]).2.length
        = [stu "s1" "p", stu "s2" "q"].countP
            (qualifies (unitEnv [boxA])) :=
  load_reference_faces_count (unitEnv [boxA])
    [stu "s1" "p", stu "s2" "q"] (by decide)

/-- C7: when detection finds the non-empty box list `f :: fs` in a
student's loadable photo, gallery construction stores under the
student's id an entry whose canonical face is the crop of
`pymax boxArea f fs` — a box of the detection result with maximal area
`w * h`, and precisely the first such box in detection order (it equals
`firstLargestBox`, the first box whose area is at least every box's
area). -/
theorem load_stores_largest_face (env : PhotoEnv Img) (gallery : Gallery Img)
    (s : Student) (f : Box) (fs : List Box)
    (hpe : env.pathExists s.photo_path = true)
    (hio : env.imreadOk s.photo_path = true)
    (hdet : env.detect s.photo_path = f :: fs) :
    dictGet (processStudent env gallery s) s.student_id
      = some { name := s.first_name ++ " " ++ s.last_name,
               face_roi := env.crop s.photo_path (pymax boxArea f fs),
               face_coords := pymax boxArea f fs }
    ∧ firstLargestBox (f :: fs) = some (pymax boxArea f fs)
    ∧ pymax boxArea f fs ∈ f :: fs
    ∧ (∀ b ∈ f :: fs, boxArea b ≤ boxArea (pymax boxArea f fs)) := by
  refine ⟨?_, ?_, pymax_mem boxArea fs f, ?_⟩
  · rw [processStudent_qualifies env gallery s f fs hpe hio hdet]
    exact dictGet_dictInsert_self _ _ gallery
  · exact find?_first_max boxArea f fs
  · intro b hb
    rcases List.mem_cons.mp hb with h1 | h1
    · rw [h1]; exact key_le_pymax_seed boxArea fs f
    · exact mem_le_pymax boxArea fs f b h1

/-- Witness for C7: three boxes, the first two tied at the maximal
area 6; the first-encountered box is chosen. -/
theorem load_stores_largest_face_witness :
    dictGet (processStudent (unitEnv [boxA, boxB, boxC])
        ([] : Gallery Unit) (stu "s7" "p7")) (stu "s7" "p7").student_id
      = some { name := (stu "s7" "p7").first_name ++ " "
                 ++ (stu "s7" "p7").last_name,
               face_roi := (unitEnv [boxA, boxB, boxC]).crop
                 (stu "s7" "p7").photo_path (pymax boxArea boxA [boxB, boxC]),
               face_coords := pymax boxArea boxA [boxB, boxC] }
    ∧ firstLargestBox [boxA, boxB, boxC]
        = some (pymax boxArea boxA [boxB, boxC])
    ∧ pymax boxArea boxA [boxB, boxC] ∈ [boxA, boxB, boxC]
    ∧ (∀ b ∈ [boxA, boxB, boxC],
        boxArea b ≤ boxArea (pymax boxArea boxA [boxB, boxC])) :=
  load_stores_largest_face (unitEnv [boxA, boxB, boxC]) ([] : Gallery Unit)
    (stu "s7" "p7") boxA [boxB, boxC] rfl rfl rfl

/-- The tie among the C7 witness boxes is broken in favor of the first:
`boxA` and `boxB` share the maximal area 6 and `boxA` is selected. -/
theorem pymax_boxes_tie_first :
    pymax boxArea boxA [boxB, boxC] = boxA
    ∧ boxArea boxA = 6 ∧ boxArea boxB = 6 ∧ boxArea boxC = 1 := by
  refine ⟨?_, rfl, rfl, rfl⟩
  rfl

/-- C9: when the gallery is empty after construction, `main` reports
the "no reference faces loaded!" precondition failure and returns;
`run_attendance` is never invoked. -/
theorem pymain_empty_gallery (env : PhotoEnv Img) (students : List Student)
    (h : (load_reference_faces env ([] : Gallery Img) students).2.length = 0) :
    (pymain env students).1 = MainOutcome.emptyGalleryReport
    ∧ (pymain env students).1 ≠ MainOutcome.ranAttendance := by
  constructor
  · simp [pymain, h]
  · simp [pymain, h]

/-- Witness for C9: a roster row whose photo path does not exist, so
nothing loads and `main` stops before the capture loop. -/
theorem pymain_empty_gallery_witness :
    (pymain emptyEnv [stu "s9" "p9"]).1 = MainOutcome.emptyGalleryReport
    ∧ (pymain emptyEnv [stu "s9" "p9"]).1 ≠ MainOutcome.ranAttendance :=
  pymain_empty_gallery emptyEnv [stu "s9" "p9"] (by rfl)
